import Mathlib

/-
Verification development for the powersbiostrikes-web repository.

Shallow embedding of:
  - supabase/create_catalysts_table.sql : the catalysts table, its row-level
    security policies and the calendar_catalysts view;
  - the positions / catalyst_research schema file : the catalyst_research
    table and its UNIQUE(ticker, catalyst_date, catalyst_event) constraint;
  - the beta/waitlist schema file : the handle_new_user trigger function;
  - js/main.js : isValidEmail and storeEmail;
  - js/news-component.js : timeAgo and the NewsComponent fetch cache;
  - the supabase auth wrapper (pbsAuth).

Tables are modelled as lists of rows, SQL dates as integers (days since an
arbitrary epoch), and JavaScript timestamps as integers (milliseconds since
the epoch).  JavaScript Math.floor of a real division by a positive integer
is modelled by Int.fdiv (floor division).
-/

/- ===================================================================
   Row-level security model (PostgreSQL semantics, as used by Supabase).

   A permissive policy applies to a set of commands and a set of roles and
   carries a USING predicate; a row is visible to a SELECT issued under a
   role iff some policy that applies to SELECT and to that role has a true
   USING predicate on the row (permissive policies are OR-combined).
   =================================================================== -/

/-- Database roles relevant to the policies in the schema files. -/
inductive DBRole where
  | anon
  | authenticated
  | service_role
deriving DecidableEq

/-- SQL commands a policy can apply to. -/
inductive SqlCmd where
  | select
  | insert
  | update
  | delete
deriving DecidableEq

/-- One permissive row-level-security policy over rows of type Row.
WITH CHECK predicates are not carried: no claim here concerns the
admission of written rows, only SELECT visibility. -/
structure Policy (Row : Type) where
  appliesToCmd : SqlCmd → Bool
  appliesToRole : DBRole → Bool
  usingPred : Row → Bool

/-- Rows returned by a SELECT on a table under row-level security:
a row is kept iff some policy applicable to SELECT and to the caller's
role accepts it. -/
def rlsSelect {Row : Type} (policies : List (Policy Row)) (role : DBRole)
    (table : List Row) : List Row :=
  table.filter (fun r =>
    policies.any (fun p =>
      p.appliesToCmd SqlCmd.select && p.appliesToRole role && p.usingPred r))

/- ===================================================================
   The catalysts table (supabase/create_catalysts_table.sql).

   Only the columns referenced by a policy predicate, by the view's WHERE
   clause or ORDER BY, or by a claim are carried; the remaining columns
   are plain data columns that no policy, view predicate or claim reads.
   catalyst_date (SQL DATE) is the number of days since an epoch.
   =================================================================== -/

/-- Row of the catalysts table (key columns and is_public). -/
structure CatalystRow where
  id : Nat
  ticker : String
  catalyst_date : Int
  catalyst_event : String
  is_public : Bool
deriving DecidableEq

/-- Policy "Public catalysts are viewable by everyone":
FOR SELECT (no TO clause, hence every role) USING (is_public = true). -/
def publicCatalystsViewable : Policy CatalystRow where
  appliesToCmd := fun c => decide (c = SqlCmd.select)
  appliesToRole := fun _ => true
  usingPred := fun r => r.is_public

/-- Policy "Authenticated users can view all catalysts":
FOR SELECT TO authenticated USING (true). -/
def authenticatedViewAll : Policy CatalystRow where
  appliesToCmd := fun c => decide (c = SqlCmd.select)
  appliesToRole := fun role => decide (role = DBRole.authenticated)
  usingPred := fun _ => true

/-- Policy "Service role can manage catalysts":
FOR ALL TO service_role USING (true). -/
def serviceRoleManage : Policy CatalystRow where
  appliesToCmd := fun _ => true
  appliesToRole := fun role => decide (role = DBRole.service_role)
  usingPred := fun _ => true

/-- The three policies declared on the catalysts table, in source order. -/
def catalystsPolicies : List (Policy CatalystRow) :=
  [publicCatalystsViewable, authenticatedViewAll, serviceRoleManage]

/- ===================================================================
   The calendar_catalysts view.
   SELECT ... , (catalyst_date - CURRENT_DATE) AS days_until
   FROM catalysts WHERE catalyst_date >= CURRENT_DATE
   ORDER BY catalyst_date ASC.
   The TO_CHAR display columns are pure formatting of catalyst_date and
   are not carried.
   =================================================================== -/

/-- Row of the calendar_catalysts view: the carried table columns plus the
computed days_until column. -/
structure CalendarRow where
  id : Nat
  ticker : String
  catalyst_date : Int
  catalyst_event : String
  is_public : Bool
  days_until : Int
deriving DecidableEq

/-- The calendar_catalysts view, evaluated at the current date today over
a given contents of the catalysts table. -/
def calendar_catalysts (today : Int) (table : List CatalystRow) : List CalendarRow :=
  ((table.filter (fun r => decide (today ≤ r.catalyst_date))).mergeSort
      (fun a b => decide (a.catalyst_date ≤ b.catalyst_date))).map
    (fun r =>
      { id := r.id
        ticker := r.ticker
        catalyst_date := r.catalyst_date
        catalyst_event := r.catalyst_event
        is_public := r.is_public
        days_until := r.catalyst_date - today })

/-- C1: for a fixed contents of the catalysts table, an anonymous SELECT
returns exactly the rows with is_public = true, and an authenticated SELECT
returns every row of the table. -/
theorem catalysts_select_visibility (table : List CatalystRow) :
    rlsSelect catalystsPolicies DBRole.anon table
      = table.filter (fun r => r.is_public) ∧
    rlsSelect catalystsPolicies DBRole.authenticated table = table := by
  constructor
  · simp [rlsSelect, catalystsPolicies, publicCatalystsViewable,
      authenticatedViewAll, serviceRoleManage]
  · simp [rlsSelect, catalystsPolicies, publicCatalystsViewable,
      authenticatedViewAll, serviceRoleManage]

/-- C2: for every contents of the catalysts table and every current date,
the calendar_catalysts view contains no row whose catalyst_date is strictly
before the current date. -/
theorem calendar_catalysts_no_past_rows (today : Int) (table : List CatalystRow) :
    (calendar_catalysts today table).all
      (fun row => !decide (row.catalyst_date < today)) = true := by
  rw [List.all_eq_true]
  intro row hrow
  simp only [calendar_catalysts, List.mem_map, List.mem_mergeSort,
    List.mem_filter] at hrow
  obtain ⟨r, ⟨_, hr⟩, hmap⟩ := hrow
  simp only [decide_eq_true_eq] at hr
  subst hmap
  simp only [Bool.not_eq_true', decide_eq_false_iff_not, not_lt]
  exact hr

/- ===================================================================
   The catalyst_research table (positions / catalyst_research schema file).

   CREATE TABLE catalyst_research ( ... ,
     UNIQUE(ticker, catalyst_date, catalyst_event) );
   In this table catalyst_date is a TEXT column, hence a String here.
   Only the key columns of the uniqueness triple (and id) are carried; the
   remaining columns are plain data columns no constraint or claim reads.
   =================================================================== -/

/-- Row of the catalyst_research table (id and the uniqueness triple). -/
structure ResearchRow where
  id : Nat
  ticker : String
  catalyst_date : String
  catalyst_event : String
deriving DecidableEq

/-- Equality of the UNIQUE(ticker, catalyst_date, catalyst_event) triple. -/
def tripleEq (a b : ResearchRow) : Bool :=
  decide (a.ticker = b.ticker) && decide (a.catalyst_date = b.catalyst_date)
    && decide (a.catalyst_event = b.catalyst_event)

/-- Error raised by the database engine on a constraint violation. -/
inductive InsertError where
  | uniqueViolation
deriving DecidableEq

/-- An INSERT into catalyst_research as executed by the database engine
under the UNIQUE(ticker, catalyst_date, catalyst_event) constraint: it
fails when a row with the same triple is already present, and appends the
row otherwise. -/
def insertResearch (table : List ResearchRow) (r : ResearchRow) :
    Except InsertError (List ResearchRow) :=
  if table.any (fun x => tripleEq x r) then Except.error InsertError.uniqueViolation
  else Except.ok (table ++ [r])

/-- No two rows of the table share the uniqueness triple. -/
def NoDupTriples (table : List ResearchRow) : Prop :=
  table.Pairwise (fun a b => tripleEq a b = false)

/-- C3: inserting a row whose (ticker, catalyst_date, catalyst_event)
triple equals that of a row already present fails with a uniqueness
violation (the table is unchanged because no new table is produced), and a
successful insert preserves the invariant that no two rows share the
triple. -/
theorem catalyst_research_unique_triple (table : List ResearchRow) (r : ResearchRow) :
    (∀ x, x ∈ table → tripleEq x r = true →
      insertResearch table r = Except.error InsertError.uniqueViolation) ∧
    (∀ table2, NoDupTriples table → insertResearch table r = Except.ok table2 →
      NoDupTriples table2) := by
  constructor
  · intro x hx htriple
    have hany : table.any (fun x => tripleEq x r) = true :=
      List.any_eq_true.mpr ⟨x, hx, htriple⟩
    simp [insertResearch, hany]
  · intro table2 hnodup hok
    by_cases hany : table.any (fun x => tripleEq x r) = true
    · simp [insertResearch, hany] at hok
    · simp only [insertResearch, hany, Bool.false_eq_true, if_false,
        Except.ok.injEq] at hok
      subst hok
      rw [NoDupTriples, List.pairwise_append]
      refine ⟨hnodup, List.pairwise_singleton _ _, ?_⟩
      intro a ha b hb
      rw [List.mem_singleton] at hb
      subst hb
      rw [List.any_eq_true] at hany
      push_neg at hany
      exact Bool.eq_false_iff.mpr (hany a ha)

/-- Witness for C3 at concrete inputs: a duplicate triple is rejected, and
inserting a fresh triple into a duplicate-free table keeps it
duplicate-free. -/
theorem catalyst_research_unique_triple_witness :
    insertResearch [⟨1, "ACAD", "2025-03-01", "PDUFA"⟩]
        ⟨2, "ACAD", "2025-03-01", "PDUFA"⟩
      = Except.error InsertError.uniqueViolation ∧
    NoDupTriples [⟨1, "ACAD", "2025-03-01", "PDUFA"⟩, ⟨3, "SAVA", "2025-04-02", "Phase 3"⟩] := by
  have h := catalyst_research_unique_triple
    [⟨1, "ACAD", "2025-03-01", "PDUFA"⟩] ⟨2, "ACAD", "2025-03-01", "PDUFA"⟩
  refine ⟨h.1 ⟨1, "ACAD", "2025-03-01", "PDUFA"⟩ (by decide) (by decide), ?_⟩
  have h2 := catalyst_research_unique_triple
    [⟨1, "ACAD", "2025-03-01", "PDUFA"⟩] ⟨3, "SAVA", "2025-04-02", "Phase 3"⟩
  exact h2.2 _ (by unfold NoDupTriples; decide) rfl

/- ===================================================================
   The handle_new_user trigger function (beta/waitlist schema file).

   INSERT INTO public.profiles (id, email, full_name, access_status, created_at)
   VALUES (NEW.id, NEW.email,
           COALESCE(NEW.raw_user_meta_data->>'full_name', ''),
           'waitlist', NOW())
   ON CONFLICT (id) DO NOTHING;
   =================================================================== -/

/-- The fields of a new auth.users row that the trigger reads; the
full_name attribute of raw_user_meta_data is nullable. -/
structure AuthUser where
  id : String
  email : String
  full_name_meta : Option String
deriving DecidableEq

/-- Row of the profiles table (columns the trigger writes; created_at is a
timestamp no claim reads and is not carried). -/
structure Profile where
  id : String
  email : String
  full_name : String
  access_status : String
deriving DecidableEq

/-- One firing of the handle_new_user trigger for auth user u against a
profiles table: an insert with ON CONFLICT (id) DO NOTHING. -/
def handle_new_user (u : AuthUser) (profiles : List Profile) : List Profile :=
  if profiles.any (fun p => decide (p.id = u.id)) then profiles
  else profiles ++ [{ id := u.id
                      email := u.email
                      full_name := u.full_name_meta.getD ""
                      access_status := "waitlist" }]

/-- After the trigger fires for u, the profiles table always contains a row
with the id of u. -/
theorem handle_new_user_mem (u : AuthUser) (profiles : List Profile) :
    (handle_new_user u profiles).any (fun p => decide (p.id = u.id)) = true := by
  by_cases h : profiles.any (fun p => decide (p.id = u.id)) = true
  · simp [handle_new_user, h]
  · simp [handle_new_user, h]

/-- C4: firing the new-user trigger for an id with no existing profile row
leaves exactly one profiles row for that id, that row has
access_status = 'waitlist', any number of further firings for the same id
change nothing, and a firing for an id that already has a profile row is a
no-op. -/
theorem handle_new_user_idempotent_waitlist (profiles : List Profile) (u : AuthUser)
    (h : profiles.any (fun p => decide (p.id = u.id)) = false) :
    ((handle_new_user u profiles).filter (fun p => decide (p.id = u.id))).length = 1 ∧
    (∀ p, p ∈ (handle_new_user u profiles).filter (fun p => decide (p.id = u.id)) →
      p.access_status = "waitlist") ∧
    (∀ n : Nat, (handle_new_user u)^[n + 1] profiles = handle_new_user u profiles) ∧
    (∀ qs : List Profile, qs.any (fun p => decide (p.id = u.id)) = true →
      handle_new_user u qs = qs) := by
  have hnoop : ∀ qs : List Profile,
      qs.any (fun p => decide (p.id = u.id)) = true → handle_new_user u qs = qs := by
    intro qs hqs
    simp [handle_new_user, hqs]
  have hfilter : profiles.filter (fun p => decide (p.id = u.id)) = [] := by
    rw [List.filter_eq_nil_iff]
    intro p hp
    rw [List.any_eq_false] at h
    simpa using h p hp
  have hstep : handle_new_user u profiles
      = profiles ++ [{ id := u.id
                       email := u.email
                       full_name := u.full_name_meta.getD ""
                       access_status := "waitlist" }] := by
    simp [handle_new_user, h]
  refine ⟨?_, ?_, ?_, hnoop⟩
  · rw [hstep, List.filter_append, hfilter]
    simp
  · intro p hp
    rw [hstep, List.filter_append, hfilter] at hp
    simp only [List.nil_append, List.mem_filter, List.mem_singleton] at hp
    rw [hp.1]
  · intro n
    induction n with
    | zero => rfl
    | succ m ih =>
        rw [Function.iterate_succ_apply', ih]
        exact hnoop _ (handle_new_user_mem u profiles)

/-- Witness for C4 at concrete inputs: firing the trigger twice for a fresh
id yields one waitlist row for that id and the second firing is a no-op. -/
theorem handle_new_user_idempotent_waitlist_witness :
    ((handle_new_user ⟨"u1", "a@b.co", none⟩ []).filter
        (fun p => decide (p.id = "u1"))).length = 1 ∧
    (handle_new_user ⟨"u1", "a@b.co", none⟩)^[2] []
      = handle_new_user ⟨"u1", "a@b.co", none⟩ [] := by
  have h := handle_new_user_idempotent_waitlist [] ⟨"u1", "a@b.co", none⟩ (by decide)
  exact ⟨h.1, h.2.2.1 1⟩

/- ===================================================================
   isValidEmail (js/main.js):

     const emailRegex = /^[^\s@]+@[^\s@]+\.[^\s@]+$/;
     return emailRegex.test(email);

   The character class [^\s@] excludes the at sign and the JavaScript
   whitespace class \s (tab, line feed, vertical tab, form feed, carriage
   return, space, NBSP, and the Unicode space separators the ECMAScript
   standard lists).  The matcher below is the standard functional
   translation of this anchored regex; the separate proposition
   MatchesEmailRegex is its declarative denotation (a decomposition
   local @ x . y with nonempty pieces), and the C5 theorem proves the two
   agree on every string.
   =================================================================== -/

/-- Characters matched by the ECMAScript \s class. -/
def isJsSpace (c : Char) : Bool :=
  decide (c = ' ') || decide (c = '\t') || decide (c = '\n') ||
  decide (c.val = 11) || decide (c.val = 12) || decide (c = '\r') ||
  decide (c.val = 0xa0) || decide (c.val = 0x1680) ||
  (decide (0x2000 ≤ c.val) && decide (c.val ≤ 0x200a)) ||
  decide (c.val = 0x2028) || decide (c.val = 0x2029) ||
  decide (c.val = 0x202f) || decide (c.val = 0x205f) ||
  decide (c.val = 0x3000) || decide (c.val = 0xfeff)

/-- Characters matched by the class [^\s@]. -/
def isEmailChar (c : Char) : Bool :=
  !isJsSpace c && !decide (c = '@')

/-- Matches the trailing piece [^\s@]+$ of the regex. -/
def matchTail : List Char → Bool
  | [] => false
  | c :: cs => isEmailChar c && cs.all isEmailChar

/-- Matches [^\s@]*\.[^\s@]+$ : the rest of the domain after at least one
domain character has been consumed; the first alternative commits to the
separating dot, the second consumes one more domain character. -/
def matchDomainRest : List Char → Bool
  | [] => false
  | c :: cs => (decide (c = '.') && matchTail cs) || (isEmailChar c && matchDomainRest cs)

/-- Matches the domain piece [^\s@]+\.[^\s@]+$ of the regex. -/
def matchDomain : List Char → Bool
  | [] => false
  | c :: cs => isEmailChar c && matchDomainRest cs

/-- Matches [^\s@]*@[^\s@]+\.[^\s@]+$ : the rest of the input after at
least one local character has been consumed. -/
def matchLocalRest : List Char → Bool
  | [] => false
  | c :: cs => (decide (c = '@') && matchDomain cs) || (isEmailChar c && matchLocalRest cs)

/-- Matches the whole anchored regex over the characters of the string. -/
def matchEmail : List Char → Bool
  | [] => false
  | c :: cs => isEmailChar c && matchLocalRest cs

/-- isValidEmail from js/main.js: test the anchored email regex. -/
def isValidEmail (email : String) : Bool :=
  matchEmail email.data

/-- Every character of the list lies in the class [^\s@]. -/
def EmailChars (l : List Char) : Prop := ∀ c ∈ l, isEmailChar c = true

/-- Denotation of the regex ^[^\s@]+@[^\s@]+\.[^\s@]+$ : the string splits
as a nonempty local part, an at sign, and a domain containing a dot with a
nonempty piece on each side, all pieces drawn from [^\s@]. -/
def MatchesEmailRegex (s : String) : Prop :=
  ∃ a x y : List Char,
    s.data = a ++ '@' :: (x ++ '.' :: y) ∧
    a ≠ [] ∧ x ≠ [] ∧ y ≠ [] ∧ EmailChars a ∧ EmailChars x ∧ EmailChars y

theorem matchTail_iff (l : List Char) :
    matchTail l = true ↔ l ≠ [] ∧ EmailChars l := by
  cases l with
  | nil => simp [matchTail]
  | cons c cs =>
      simp [matchTail, EmailChars, List.all_eq_true]

theorem matchDomainRest_iff (l : List Char) :
    matchDomainRest l = true ↔
      ∃ x y, l = x ++ '.' :: y ∧ EmailChars x ∧ y ≠ [] ∧ EmailChars y := by
  induction l with
  | nil =>
      simp only [matchDomainRest, Bool.false_eq_true, false_iff]
      rintro ⟨x, y, hxy, -⟩
      exact List.noConfusion (List.append_eq_nil.mp hxy.symm).2
  | cons c cs ih =>
      constructor
      · intro h
        simp only [matchDomainRest, Bool.or_eq_true, Bool.and_eq_true,
          decide_eq_true_eq] at h
        rcases h with ⟨hdot, htail⟩ | ⟨hc, hrest⟩
        · obtain ⟨hne, hchars⟩ := (matchTail_iff cs).mp htail
          refine ⟨[], cs, ?_, ?_, hne, hchars⟩
          · simp [hdot]
          · intro d hd
            exact absurd hd (List.not_mem_nil d)
        · obtain ⟨x, y, hxy, hx, hyne, hy⟩ := ih.mp hrest
          refine ⟨c :: x, y, by rw [hxy]; rfl, ?_, hyne, hy⟩
          intro d hd
          rcases List.mem_cons.mp hd with hd | hd
          · rwa [hd]
          · exact hx d hd
      · rintro ⟨x, y, hxy, hx, hyne, hy⟩
        cases x with
        | nil =>
            simp only [List.nil_append, List.cons.injEq] at hxy
            obtain ⟨hc, hcs⟩ := hxy
            have : matchTail cs = true := (matchTail_iff cs).mpr (by rw [hcs]; exact ⟨hyne, hy⟩)
            simp [matchDomainRest, hc, this]
        | cons d ds =>
            simp only [List.cons_append, List.cons.injEq] at hxy
            obtain ⟨hc, hcs⟩ := hxy
            have hd : isEmailChar c = true := by
              rw [hc]; exact hx d (List.mem_cons_self d ds)
            have : matchDomainRest cs = true := ih.mpr
              ⟨ds, y, hcs, fun e he => hx e (List.mem_cons_of_mem d he), hyne, hy⟩
            simp [matchDomainRest, hd, this]

theorem matchDomain_iff (l : List Char) :
    matchDomain l = true ↔
      ∃ x y, l = x ++ '.' :: y ∧ x ≠ [] ∧ EmailChars x ∧ y ≠ [] ∧ EmailChars y := by
  cases l with
  | nil =>
      simp only [matchDomain, Bool.false_eq_true, false_iff]
      rintro ⟨x, y, hxy, -⟩
      exact List.noConfusion (List.append_eq_nil.mp hxy.symm).2
  | cons c cs =>
      constructor
      · intro h
        simp only [matchDomain, Bool.and_eq_true] at h
        obtain ⟨hc, hrest⟩ := h
        obtain ⟨x, y, hxy, hx, hyne, hy⟩ := (matchDomainRest_iff cs).mp hrest
        refine ⟨c :: x, y, by rw [hxy]; rfl, List.cons_ne_nil c x, ?_, hyne, hy⟩
        intro d hd
        rcases List.mem_cons.mp hd with hd | hd
        · rwa [hd]
        · exact hx d hd
      · rintro ⟨x, y, hxy, hxne, hx, hyne, hy⟩
        cases x with
        | nil => exact absurd rfl hxne
        | cons d ds =>
            simp only [List.cons_append, List.cons.injEq] at hxy
            obtain ⟨hc, hcs⟩ := hxy
            have hd : isEmailChar c = true := by
              rw [hc]; exact hx d (List.mem_cons_self d ds)
            have : matchDomainRest cs = true := (matchDomainRest_iff cs).mpr
              ⟨ds, y, hcs, fun e he => hx e (List.mem_cons_of_mem d he), hyne, hy⟩
            simp [matchDomain, hd, this]

theorem matchLocalRest_iff (l : List Char) :
    matchLocalRest l = true ↔
      ∃ a rest, l = a ++ '@' :: rest ∧ EmailChars a ∧ matchDomain rest = true := by
  induction l with
  | nil =>
      simp only [matchLocalRest, Bool.false_eq_true, false_iff]
      rintro ⟨a, rest, hxy, -⟩
      exact List.noConfusion (List.append_eq_nil.mp hxy.symm).2
  | cons c cs ih =>
      constructor
      · intro h
        simp only [matchLocalRest, Bool.or_eq_true, Bool.and_eq_true,
          decide_eq_true_eq] at h
        rcases h with ⟨hat, hdom⟩ | ⟨hc, hrest⟩
        · refine ⟨[], cs, by simp [hat], ?_, hdom⟩
          intro d hd
          exact absurd hd (List.not_mem_nil d)
        · obtain ⟨a, rest, hxy, ha, hdom⟩ := ih.mp hrest
          refine ⟨c :: a, rest, by rw [hxy]; rfl, ?_, hdom⟩
          intro d hd
          rcases List.mem_cons.mp hd with hd | hd
          · rwa [hd]
          · exact ha d hd
      · rintro ⟨a, rest, hxy, ha, hdom⟩
        cases a with
        | nil =>
            simp only [List.nil_append, List.cons.injEq] at hxy
            obtain ⟨hc, hcs⟩ := hxy
            simp [matchLocalRest, hc, hcs, hdom]
        | cons d ds =>
            simp only [List.cons_append, List.cons.injEq] at hxy
            obtain ⟨hc, hcs⟩ := hxy
            have hd : isEmailChar c = true := by
              rw [hc]; exact ha d (List.mem_cons_self d ds)
            have : matchLocalRest cs = true := ih.mpr
              ⟨ds, rest, hcs, fun e he => ha e (List.mem_cons_of_mem d he), hdom⟩
            simp [matchLocalRest, hd, this]

/-- C5: for every string s, isValidEmail s returns true iff s matches the
anchored regular expression carried by the code, read declaratively as a
decomposition into a nonempty [^\s@] local part, an at sign, and a domain
containing a dot flanked by nonempty [^\s@] pieces. -/
theorem isValidEmail_iff_matches (s : String) :
    isValidEmail s = true ↔ MatchesEmailRegex s := by
  rw [isValidEmail, MatchesEmailRegex]
  cases hdata : s.data with
  | nil =>
      simp only [matchEmail, Bool.false_eq_true, false_iff]
      rintro ⟨a, x, y, hxy, -⟩
      exact List.noConfusion (List.append_eq_nil.mp hxy.symm).2
  | cons c cs =>
      constructor
      · intro h
        simp only [matchEmail, Bool.and_eq_true] at h
        obtain ⟨hc, hrest⟩ := h
        obtain ⟨a, rest, hxy, ha, hdom⟩ := (matchLocalRest_iff cs).mp hrest
        obtain ⟨x, y, hrestxy, hxne, hx, hyne, hy⟩ := (matchDomain_iff rest).mp hdom
        refine ⟨c :: a, x, y, ?_, List.cons_ne_nil c a, hxne, hyne, ?_, hx, hy⟩
        · rw [hxy, hrestxy]; rfl
        · intro d hd
          rcases List.mem_cons.mp hd with hd | hd
          · rwa [hd]
          · exact ha d hd
      · rintro ⟨a, x, y, hxy, hane, hxne, hyne, ha, hx, hy⟩
        cases a with
        | nil => exact absurd rfl hane
        | cons d ds =>
            simp only [List.cons_append, List.cons.injEq] at hxy
            obtain ⟨hc, hcs⟩ := hxy
            have hd : isEmailChar c = true := by
              rw [hc]; exact ha d (List.mem_cons_self d ds)
            have hdom : matchDomain (x ++ '.' :: y) = true :=
              (matchDomain_iff _).mpr ⟨x, y, rfl, hxne, hx, hyne, hy⟩
            have : matchLocalRest cs = true := (matchLocalRest_iff cs).mpr
              ⟨ds, x ++ '.' :: y, hcs,
                fun e he => ha e (List.mem_cons_of_mem d he), hdom⟩
            simp [matchEmail, hd, this]

/- ===================================================================
   storeEmail (js/main.js): read the pbs_waitlist list, skip the write
   when some stored entry has the same email (exact string match), and
   append {email, source, timestamp} otherwise.
   =================================================================== -/

/-- Entry of the pbs_waitlist client storage list. -/
structure WaitlistEntry where
  email : String
  source : String
  timestamp : String
deriving DecidableEq

/-- storeEmail from js/main.js, acting on the stored pbs_waitlist list;
the timestamp argument stands for new Date().toISOString() at call time. -/
def storeEmail (email source timestamp : String) (stored : List WaitlistEntry) :
    List WaitlistEntry :=
  if stored.any (fun entry => decide (entry.email = email)) then stored
  else stored ++ [{ email := email, source := source, timestamp := timestamp }]

/-- C6: starting from a stored waitlist list (which, having been written by
storeEmail, holds at most one entry per email), two storeEmail calls with
the same email leave exactly one entry with that email, the second call
changes nothing, and the at-most-one-entry bound for that email is kept by
any further storeEmail call. -/
theorem storeEmail_dedup (stored : List WaitlistEntry) (e s1 s2 t1 t2 : String)
    (h : (stored.filter (fun x => decide (x.email = e))).length ≤ 1) :
    ((storeEmail e s2 t2 (storeEmail e s1 t1 stored)).filter
        (fun x => decide (x.email = e))).length = 1 ∧
    storeEmail e s2 t2 (storeEmail e s1 t1 stored) = storeEmail e s1 t1 stored ∧
    (∀ e3 s3 t3, ((storeEmail e3 s3 t3 (storeEmail e s1 t1 stored)).filter
        (fun x => decide (x.email = e))).length ≤ 1) := by
  have hany1 : (storeEmail e s1 t1 stored).any
      (fun entry => decide (entry.email = e)) = true := by
    by_cases hs : stored.any (fun entry => decide (entry.email = e)) = true
    · rw [storeEmail, if_pos hs]
      exact hs
    · simp [storeEmail, hs]
  have hcount : ((storeEmail e s1 t1 stored).filter
      (fun x => decide (x.email = e))).length = 1 := by
    by_cases hs : stored.any (fun entry => decide (entry.email = e)) = true
    · rw [storeEmail, if_pos hs]
      obtain ⟨w, hw, hwe⟩ := List.any_eq_true.mp hs
      have hle := h
      have hge : 1 ≤ (stored.filter (fun x => decide (x.email = e))).length := by
        have : w ∈ stored.filter (fun x => decide (x.email = e)) :=
          List.mem_filter.mpr ⟨hw, hwe⟩
        exact List.length_pos.mpr (List.ne_nil_of_mem this)
      omega
    · have hs2 : stored.any (fun entry => decide (entry.email = e)) = false :=
        Bool.eq_false_iff.mpr hs
      have hnil : stored.filter (fun x => decide (x.email = e)) = [] := by
        rw [List.filter_eq_nil_iff]
        intro x hx
        rw [List.any_eq_false] at hs2
        exact hs2 x hx
      rw [storeEmail, if_neg hs, List.filter_append, hnil]
      simp
  have hnoop : storeEmail e s2 t2 (storeEmail e s1 t1 stored)
      = storeEmail e s1 t1 stored := by
    rw [storeEmail, if_pos hany1]
  refine ⟨by rw [hnoop]; exact hcount, hnoop, ?_⟩
  intro e3 s3 t3
  by_cases h3 : (storeEmail e s1 t1 stored).any
      (fun entry => decide (entry.email = e3)) = true
  · rw [storeEmail, if_pos h3, hcount]
  · rw [storeEmail, if_neg h3, List.filter_append, List.length_append, hcount]
    by_cases hee : e3 = e
    · subst hee
      exact absurd hany1 h3
    · have : (List.filter (fun x => decide (x.email = e))
          [({ email := e3, source := s3, timestamp := t3 } : WaitlistEntry)]) = [] := by
        simp [hee]
      rw [this]
      simp

/-- Witness for C6 at concrete inputs: two submissions of the same email
starting from the empty stored list leave exactly one matching entry, and
the second call is a no-op. -/
theorem storeEmail_dedup_witness :
    ((storeEmail "a@b.co" "footer" "t2" (storeEmail "a@b.co" "hero" "t1" [])).filter
        (fun x => decide (x.email = "a@b.co"))).length = 1 ∧
    storeEmail "a@b.co" "footer" "t2" (storeEmail "a@b.co" "hero" "t1" [])
      = storeEmail "a@b.co" "hero" "t1" [] := by
  have h := storeEmail_dedup [] "a@b.co" "hero" "footer" "t1" "t2" (by decide)
  exact ⟨h.1, h.2.1⟩

/- ===================================================================
   timeAgo (js/news-component.js):

     const seconds = Math.floor((now - date) / 1000);
     if (seconds < 60) return 'just now';
     if (seconds < 3600) return Math.floor(seconds / 60) + 'm ago';
     if (seconds < 86400) return Math.floor(seconds / 3600) + 'h ago';
     return Math.floor(seconds / 86400) + 'd ago';

   Timestamps are milliseconds since the epoch; Math.floor of the real
   division is floor division Int.fdiv.
   =================================================================== -/

/-- The elapsed whole seconds timeAgo computes from the published and
current timestamps (milliseconds since the epoch). -/
def elapsedSeconds (published now : Int) : Int :=
  Int.fdiv (now - published) 1000

/-- timeAgo from js/news-component.js. -/
def timeAgo (published now : Int) : String :=
  let seconds := elapsedSeconds published now
  if seconds < 60 then "just now"
  else if seconds < 3600 then toString (Int.fdiv seconds 60) ++ "m ago"
  else if seconds < 86400 then toString (Int.fdiv seconds 3600) ++ "h ago"
  else toString (Int.fdiv seconds 86400) ++ "d ago"

/-- C7: timeAgo returns "1m ago" at 90 elapsed seconds, "2h ago" at 7200
elapsed seconds, "just now" at 0 elapsed seconds, and in general buckets
elapsed whole seconds as under 60 seconds to "just now", under an hour to
whole minutes, under a day to whole hours, and otherwise to whole days,
each by floor integer division. -/
theorem timeAgo_buckets (published now : Int) :
    timeAgo 0 90000 = "1m ago" ∧
    timeAgo 0 7200000 = "2h ago" ∧
    timeAgo 0 0 = "just now" ∧
    (elapsedSeconds published now < 60 → timeAgo published now = "just now") ∧
    (60 ≤ elapsedSeconds published now → elapsedSeconds published now < 3600 →
      timeAgo published now
        = toString (Int.fdiv (elapsedSeconds published now) 60) ++ "m ago") ∧
    (3600 ≤ elapsedSeconds published now → elapsedSeconds published now < 86400 →
      timeAgo published now
        = toString (Int.fdiv (elapsedSeconds published now) 3600) ++ "h ago") ∧
    (86400 ≤ elapsedSeconds published now →
      timeAgo published now
        = toString (Int.fdiv (elapsedSeconds published now) 86400) ++ "d ago") := by
  refine ⟨by decide, by decide, by decide, ?_, ?_, ?_, ?_⟩
  · intro h
    rw [timeAgo]
    simp [h]
  · intro h1 h2
    have hn : ¬ elapsedSeconds published now < 60 := by omega
    rw [timeAgo]
    simp only [if_neg hn, if_pos h2]
  · intro h1 h2
    have hn1 : ¬ elapsedSeconds published now < 60 := by omega
    have hn2 : ¬ elapsedSeconds published now < 3600 := by omega
    rw [timeAgo]
    simp only [if_neg hn1, if_neg hn2, if_pos h2]
  · intro h1
    have hn1 : ¬ elapsedSeconds published now < 60 := by omega
    have hn2 : ¬ elapsedSeconds published now < 3600 := by omega
    have hn3 : ¬ elapsedSeconds published now < 86400 := by omega
    rw [timeAgo]
    simp only [if_neg hn1, if_neg hn2, if_neg hn3]

/-- Witness for C7 at concrete inputs, discharging the bucket bounds: 90
elapsed seconds fall in the minutes bucket, 7200 in the hours bucket, 0 in
the "just now" bucket, and 172800 in the days bucket. -/
theorem timeAgo_buckets_witness :
    timeAgo 0 90000 = toString (Int.fdiv (elapsedSeconds 0 90000) 60) ++ "m ago" ∧
    timeAgo 0 7200000 = toString (Int.fdiv (elapsedSeconds 0 7200000) 3600) ++ "h ago" ∧
    timeAgo 0 0 = "just now" ∧
    timeAgo 0 172800000 = toString (Int.fdiv (elapsedSeconds 0 172800000) 86400) ++ "d ago" := by
  refine ⟨(timeAgo_buckets 0 90000).2.2.2.2.1 (by decide) (by decide),
    (timeAgo_buckets 0 7200000).2.2.2.2.2.1 (by decide) (by decide),
    (timeAgo_buckets 0 0).2.2.2.1 (by decide),
    (timeAgo_buckets 0 172800000).2.2.2.2.2.2 (by decide)⟩

/-- C9: for every timestamp strictly in the future the elapsed seconds are
negative, so timeAgo returns "just now" and never a negative minutes,
hours or days string. -/
theorem timeAgo_future_just_now (published now : Int) (h : now < published) :
    timeAgo published now = "just now" := by
  have hneg : elapsedSeconds published now < 60 := by
    rw [elapsedSeconds, Int.fdiv_eq_ediv _ (by omega)]
    omega
  rw [timeAgo]
  simp [hneg]

/-- Witness for C9 at a concrete input: a timestamp one millisecond in the
future renders as "just now". -/
theorem timeAgo_future_just_now_witness : timeAgo 1 0 = "just now" :=
  timeAgo_future_just_now 1 0 (by decide)

/- ===================================================================
   NewsComponent (js/news-component.js): module-level cache newsData is
   null until the first successful fetch-and-parse; init renders the empty,
   news or error state into the container; init and getTickerNews fetch
   only when newsData is null.

   The fetch-and-parse step is abstracted as an Except value (error for a
   rejected fetch or a JSON parse failure); the rendered HTML strings are
   abstracted by the Rendered constructors that name which template the
   code writes into the container.
   =================================================================== -/

/-- Item of the static news feed (the fields the component reads). -/
structure NewsItem where
  title : String
  link : String
  publisher : String
  published : Int
  sentiment : String
  categories : List String
  tags : List String
deriving DecidableEq

/-- Parsed shape of data/news.json. -/
structure NewsData where
  by_ticker : List (String × List NewsItem)
  high_priority : List NewsItem
deriving DecidableEq

/-- Lookup this.newsData.by_ticker?.[ticker] || []. -/
def lookupTicker (nd : NewsData) (ticker : String) : List NewsItem :=
  (((nd.by_ticker.find? (fun p => decide (p.1 = ticker))).map (fun p => p.2)).getD [])

/-- Mutable state of the NewsComponent module: the newsData cache. -/
structure NewsComponentState where
  newsData : Option NewsData
deriving DecidableEq

/-- Which template init writes into the container. -/
inductive Rendered where
  | loading
  | emptyState (ticker : String)
  | errorState
  | newsList (items : List NewsItem) (ticker : String)
deriving DecidableEq

/-- The rendering branch of init once news data is available. -/
def renderResult (nd : NewsData) (ticker : String) (maxItems : Nat) : Rendered :=
  let tickerNews := lookupTicker nd ticker
  if tickerNews.length = 0 then Rendered.emptyState ticker
  else Rendered.newsList (tickerNews.take maxItems) ticker

namespace NewsComponent

/-- NewsComponent.init: fetches and parses the feed only when the cache is
empty (fetchResult abstracts that step; error covers both a failed fetch
and a failed JSON parse, in which case the catch block renders the error
state and the cache is left unassigned).  Returns the new state, the final
container contents, and whether a fetch was attempted. -/
def init (st : NewsComponentState) (fetchResult : Except Unit NewsData)
    (ticker : String) (maxItems : Nat) : NewsComponentState × Rendered × Bool :=
  match st.newsData with
  | some nd => (st, renderResult nd ticker maxItems, false)
  | none =>
      match fetchResult with
      | Except.ok nd => (⟨some nd⟩, renderResult nd ticker maxItems, true)
      | Except.error _ => (st, Rendered.errorState, true)

/-- NewsComponent.getTickerNews: same caching discipline; on a fetch or
parse failure the exception propagates to the caller (error result). -/
def getTickerNews (st : NewsComponentState) (fetchResult : Except Unit NewsData)
    (ticker : String) : NewsComponentState × Except Unit (List NewsItem) × Bool :=
  match st.newsData with
  | some nd => (st, Except.ok (lookupTicker nd ticker), false)
  | none =>
      match fetchResult with
      | Except.ok nd => (⟨some nd⟩, Except.ok (lookupTicker nd ticker), true)
      | Except.error e => (st, Except.error e, true)

end NewsComponent

/-- C10: when the cache is empty and the fetch or parse fails, init leaves
newsData null, renders the error state, and attempted the fetch; a
subsequent init or getTickerNews on the resulting state attempts the fetch
again instead of serving a cached failure. -/
theorem newsComponent_failed_fetch_not_cached (st : NewsComponentState)
    (ticker ticker2 : String) (maxItems maxItems2 : Nat)
    (f2 : Except Unit NewsData) (h : st.newsData = none) :
    (NewsComponent.init st (Except.error ()) ticker maxItems).1.newsData = none ∧
    (NewsComponent.init st (Except.error ()) ticker maxItems).2.1 = Rendered.errorState ∧
    (NewsComponent.init st (Except.error ()) ticker maxItems).2.2 = true ∧
    (NewsComponent.init (NewsComponent.init st (Except.error ()) ticker maxItems).1
        f2 ticker2 maxItems2).2.2 = true ∧
    (NewsComponent.getTickerNews (NewsComponent.init st (Except.error ()) ticker maxItems).1
        f2 ticker2).2.2 = true := by
  have hfail : NewsComponent.init st (Except.error ()) ticker maxItems
      = (st, Rendered.errorState, true) := by
    rw [NewsComponent.init.eq_def, h]
  refine ⟨by rw [hfail]; exact h, by rw [hfail], by rw [hfail], ?_, ?_⟩
  · rw [hfail, NewsComponent.init.eq_def, h]
    cases f2 <;> rfl
  · rw [hfail, NewsComponent.getTickerNews.eq_def, h]
    cases f2 <;> rfl

/-- Witness for C10 at concrete inputs: starting from the empty cache, a
failed fetch leaves the cache empty, renders the error state, and the next
init call fetches again. -/
theorem newsComponent_failed_fetch_not_cached_witness :
    (NewsComponent.init ⟨none⟩ (Except.error ()) "ACAD" 5).1.newsData = none ∧
    (NewsComponent.init ⟨none⟩ (Except.error ()) "ACAD" 5).2.1 = Rendered.errorState ∧
    (NewsComponent.init (NewsComponent.init ⟨none⟩ (Except.error ()) "ACAD" 5).1
        (Except.error ()) "ACAD" 5).2.2 = true := by
  have h := newsComponent_failed_fetch_not_cached ⟨none⟩ "ACAD" "ACAD" 5 5
    (Except.error ()) rfl
  exact ⟨h.1, h.2.1, h.2.2.2.1⟩

/- ===================================================================
   The auth client wrapper pbsAuth (supabase-config script).

   Each wrapper operation awaits one supabase client call, whose response
   is a JavaScript object; JsVal models the JavaScript values involved.
   The wrapper bodies are direct translations:

     getUser        : destructures data.user out of the response and
                      returns the bare user;
     getSession     : likewise returns the bare session;
     signUp, signIn, resetPassword, updatePassword, getProfile,
     updateProfile  : destructure { data, error } and return { data, error };
     signOut        : destructures { error } and returns { error };
     isAuthenticated: returns !!session as a boolean.

   Each operation is a total function of the client response, which models
   that the wrapper adds no throwing code of its own on well-formed
   responses.
   =================================================================== -/

/-- Model of a JavaScript value. -/
inductive JsVal where
  | null
  | undef
  | boolean (b : Bool)
  | num (n : Int)
  | str (s : String)
  | obj (fields : List (String × JsVal))

/-- Property access v[k]: the value of the first field named k, undefined
when the field is absent or v is not an object. -/
def JsVal.getField (v : JsVal) (k : String) : JsVal :=
  match v with
  | JsVal.obj fields =>
      (((fields.find? (fun f => decide (f.1 = k))).map (fun f => f.2)).getD JsVal.undef)
  | _ => JsVal.undef

/-- Whether v is an object carrying a field named k. -/
def JsVal.hasField (v : JsVal) (k : String) : Bool :=
  match v with
  | JsVal.obj fields => fields.any (fun f => decide (f.1 = k))
  | _ => false

/-- JavaScript truthiness, as used by !!session. -/
def JsVal.truthy (v : JsVal) : Bool :=
  match v with
  | JsVal.null => false
  | JsVal.undef => false
  | JsVal.boolean b => b
  | JsVal.num n => decide (n ≠ 0)
  | JsVal.str s => decide (s ≠ "")
  | JsVal.obj _ => true

/-- A (data, error) result-pair: an object carrying both a data slot and
an error slot. -/
def isResultPair (v : JsVal) : Bool :=
  v.hasField "data" && v.hasField "error"

namespace pbsAuth

/-- getUser: return (await supabaseClient.auth.getUser()).data.user. -/
def getUser (resp : JsVal) : JsVal :=
  (resp.getField "data").getField "user"

/-- getSession: return (await supabaseClient.auth.getSession()).data.session. -/
def getSession (resp : JsVal) : JsVal :=
  (resp.getField "data").getField "session"

/-- signUp: destructure { data, error } from auth.signUp and return it. -/
def signUp (resp : JsVal) : JsVal :=
  JsVal.obj [("data", resp.getField "data"), ("error", resp.getField "error")]

/-- signIn: destructure { data, error } from auth.signInWithPassword and
return it. -/
def signIn (resp : JsVal) : JsVal :=
  JsVal.obj [("data", resp.getField "data"), ("error", resp.getField "error")]

/-- signOut: destructure { error } from auth.signOut and return { error }. -/
def signOut (resp : JsVal) : JsVal :=
  JsVal.obj [("error", resp.getField "error")]

/-- resetPassword: destructure { data, error } from
auth.resetPasswordForEmail and return it. -/
def resetPassword (resp : JsVal) : JsVal :=
  JsVal.obj [("data", resp.getField "data"), ("error", resp.getField "error")]

/-- updatePassword: destructure { data, error } from auth.updateUser and
return it. -/
def updatePassword (resp : JsVal) : JsVal :=
  JsVal.obj [("data", resp.getField "data"), ("error", resp.getField "error")]

/-- isAuthenticated: return !!(await this.getSession()). -/
def isAuthenticated (resp : JsVal) : JsVal :=
  JsVal.boolean (JsVal.truthy (getSession resp))

/-- getProfile: destructure { data, error } from the profiles select and
return it. -/
def getProfile (resp : JsVal) : JsVal :=
  JsVal.obj [("data", resp.getField "data"), ("error", resp.getField "error")]

/-- updateProfile: destructure { data, error } from the profiles upsert and
return it. -/
def updateProfile (resp : JsVal) : JsVal :=
  JsVal.obj [("data", resp.getField "data"), ("error", resp.getField "error")]

end pbsAuth

/-- A well-formed supabase auth.getUser response carrying no user:
{ data: { user: null }, error: null }. -/
def sampleGetUserResp : JsVal :=
  JsVal.obj [("data", JsVal.obj [("user", JsVal.null)]), ("error", JsVal.null)]

/-- C8 counterexample: on a well-formed client response, getUser returns
the bare user value, not a (data, error) result-pair, and isAuthenticated
returns a bare boolean, not a result-pair; so not every operation of the
wrapper returns a result-pair. -/
theorem pbsAuth_getUser_not_result_pair :
    pbsAuth.getUser sampleGetUserResp = JsVal.null ∧
    isResultPair (pbsAuth.getUser sampleGetUserResp) = false ∧
    isResultPair (pbsAuth.isAuthenticated sampleGetUserResp) = false := by
  refine ⟨rfl, rfl, rfl⟩

/-- C8 amended: the operations signUp, signIn, resetPassword,
updatePassword, getProfile and updateProfile return (data, error)
result-pairs; signOut returns an object with only an error slot; getUser
and getSession return the bare user and session values; isAuthenticated
returns a boolean.  Each operation is a total function of the client
response, so the wrapper itself throws no exception across its boundary. -/
theorem pbsAuth_result_shapes (resp : JsVal) :
    isResultPair (pbsAuth.signUp resp) = true ∧
    isResultPair (pbsAuth.signIn resp) = true ∧
    isResultPair (pbsAuth.resetPassword resp) = true ∧
    isResultPair (pbsAuth.updatePassword resp) = true ∧
    isResultPair (pbsAuth.getProfile resp) = true ∧
    isResultPair (pbsAuth.updateProfile resp) = true ∧
    (pbsAuth.signOut resp).hasField "error" = true ∧
    (pbsAuth.signOut resp).hasField "data" = false ∧
    pbsAuth.getUser resp = (resp.getField "data").getField "user" ∧
    pbsAuth.getSession resp = (resp.getField "data").getField "session" ∧
    (∃ b : Bool, pbsAuth.isAuthenticated resp = JsVal.boolean b) := by
  refine ⟨rfl, rfl, rfl, rfl, rfl, rfl, rfl, rfl, rfl, rfl,
    ⟨JsVal.truthy (pbsAuth.getSession resp), rfl⟩⟩
